import Mathlib

/-!
Verification of the incremental crawl-and-merge engine of `pci_scrapper.py`.

The development shallowly embeds the functions of the source file:

* `extract_pdf_urls_script` — the JavaScript run by `page.evaluate` inside
  `extract_pdf_urls` (source lines 35–73): two collection passes over the
  page's hyperlinks, origin-based resolution of relative targets, and
  insertion-order de-duplication (`[...new Set(pdfLinks)]`).
* `upsert_exam` / `update_exam_with_pdf_urls` — the load–merge–save logic of
  `update_exam_with_pdf_urls` (lines 78–141).  A Python record dict is
  modelled as `ExamRecord`; presence or absence of the `PdfUrls` dictionary
  key is modelled by the `Option` in `ExamRecord.pdfUrls`.
* `load_exams_list` / `load_master` — the `try/except` recovery paths of
  the two JSON loads (lines 91–108 and 184–199).  The possible on-disk
  shapes are modelled by the inductives `CargoFile` and `MasterFile`.
* `process_exam_step` / `process_cargo` — the per-exam loop of
  `process_cargo` (lines 180–258), given the structured results of the
  page navigations (`detail : String → List String` maps a detail-page URL
  to the extracted PDF URL list).  The state records the in-memory master
  dict, both persisted files, and the trace of detail pages navigated to.
* `extract_pdf_urls` / `extract_exam_links` / `process_cargo_nav` — the
  same control flow with fallible navigation: `page.goto` (lines 32 and
  148) is a single attempt with no retry and no exception handler, so a
  navigation failure propagates out of every caller.

Machine integers do not occur in the modelled code; all scraped data is
strings and lists.
-/

/-- One exam reference as produced by the `page.evaluate` script of
`extract_exam_links` (source lines 162–169): the object literal pushes the
fields `url`, `position`, `year`, `agency`, `organizer`, `level`, each a
trimmed string (missing cells degrade to `""`). -/
structure ExamDetails where
  url : String
  position : String
  year : String
  agency : String
  organizer : String
  level : String
deriving DecidableEq, Repr

/-- One stored exam entry of a cargo-specific JSON file.  The Python value
is a dict holding the six detail fields and, once
`update_exam_with_pdf_urls` has written it, the key `PdfUrls`.  Presence of
that key is modelled by `pdfUrls = some _`, absence by `none`. -/
structure ExamRecord where
  details : ExamDetails
  pdfUrls : Option (List String)
deriving DecidableEq, Repr

/-- The composite key built at source lines 112, 117 and 215:
`f"{position} - {agency} - {year}"`. -/
def examKey (position agency year : String) : String :=
  position ++ " - " ++ agency ++ " - " ++ year

/-- Key of an `ExamDetails` (source line 112 / 215). -/
def detailsKey (d : ExamDetails) : String :=
  examKey d.position d.agency d.year

/-- Key of a stored record (source line 117). -/
def recordKey (r : ExamRecord) : String :=
  detailsKey r.details

/-- Possible observed shapes of a cargo-specific JSON file, matching the
branches of the `try/except` at source lines 92–108: the file may be
missing (`FileNotFoundError`), hold text that is not JSON
(`json.JSONDecodeError`), hold JSON that is not a list (the `isinstance`
check), or hold a list of records. -/
inductive CargoFile where
  | missing
  | invalidJson
  | notAList
  | records (rs : List ExamRecord)
deriving DecidableEq, Repr

/-- The load phase of `update_exam_with_pdf_urls` (source lines 91–108):
every failure branch reinitialises `exams_list` to `[]`; only a well-formed
list is kept.  No branch re-raises. -/
def load_exams_list : CargoFile → List ExamRecord
  | .missing => []
  | .invalidJson => []
  | .notAList => []
  | .records rs => rs

/-- The merge loop of `update_exam_with_pdf_urls` (source lines 114–131):
scan for the first stored record whose composite key equals the incoming
key; if found, `exam_in_list.update(exam_details_from_link)` replaces the
detail fields and `exam_in_list['PdfUrls'] = pdf_urls_found` then
unconditionally overwrites the PDF list, and the loop breaks; if no record
matches, a copy of the incoming details plus the PDF list is appended. -/
def upsert_exam : List ExamRecord → ExamDetails → List String → List ExamRecord
  | [], d, urls => [⟨d, some urls⟩]
  | r :: rest, d, urls =>
    if recordKey r = detailsKey d then ⟨d, some urls⟩ :: rest
    else r :: upsert_exam rest d urls

/-- Full `update_exam_with_pdf_urls` (source lines 78–141): load the cargo
file with its recovery branches, merge, and save the updated list back.
The saved file therefore always holds a record list. -/
def update_exam_with_pdf_urls (file : CargoFile) (exam_details_from_link : ExamDetails)
    (pdf_urls_found : List String) : CargoFile :=
  .records (upsert_exam (load_exams_list file) exam_details_from_link pdf_urls_found)

/-- The in-memory master mapping `exam_pdf_urls`, a Python dict from
composite keys to PDF URL lists, modelled as an insertion-ordered
association list. -/
abbrev Master := List (String × List String)

/-- Possible observed shapes of the master file `exam_pdf_urls.json`,
matching source lines 184–199: absent (`os.path.exists` is false), not
JSON, JSON that is not a dict, or a dict. -/
inductive MasterFile where
  | missing
  | invalidJson
  | notADict
  | entries (m : Master)
deriving DecidableEq, Repr

/-- The master-file load of `process_cargo` (source lines 184–199): every
failure branch reinitialises to the empty dict. -/
def load_master : MasterFile → Master
  | .missing => []
  | .invalidJson => []
  | .notADict => []
  | .entries m => m

/-- Python `key in dict` (source line 218). -/
def dict_contains (m : Master) (k : String) : Bool :=
  m.any (fun kv => kv.1 = k)

/-- Python `dict[key]` lookup (first binding wins; a Python dict has at
most one binding per key, which the crawl maintains). -/
def dict_lookup : Master → String → Option (List String)
  | [], _ => none
  | kv :: rest, k => if kv.1 = k then some kv.2 else dict_lookup rest k

/-- Python `dict[key] = value` (source line 238): replace an existing
binding in place, otherwise append in insertion order. -/
def dict_insert : Master → String → List String → Master
  | [], k, v => [(k, v)]
  | kv :: rest, k, v =>
    if kv.1 = k then (k, v) :: rest else kv :: dict_insert rest k v

/-- State threaded through the exam loop of `process_cargo`: the in-memory
master dict, the persisted master file, the persisted cargo-specific file,
and the trace of detail-page URLs navigated to (one entry per
`extract_pdf_urls` invocation). -/
structure CrawlState where
  master : Master
  master_file : MasterFile
  cargo_file : CargoFile
  fetched : List String
deriving DecidableEq, Repr

/-- One iteration of the exam loop of `process_cargo` (source lines
207–255), given the structured navigation result `detail`:
if the composite key is already in the master dict, `continue` (nothing is
fetched, mutated or flushed); otherwise `extract_pdf_urls` runs; a
non-empty result is recorded in the master dict and merged into the cargo
file (`update_exam_with_pdf_urls`); an empty result is recorded nowhere
(the `if pdf_urls:` guard at line 236); in both non-skip branches the
master dict is dumped to its file (lines 248–252). -/
def process_exam_step (detail : String → List String) (s : CrawlState)
    (link : ExamDetails) : CrawlState :=
  if dict_contains s.master (detailsKey link) then s
  else
    let pdf_urls := detail link.url
    let fetched := s.fetched ++ [link.url]
    if pdf_urls.isEmpty then
      { s with fetched := fetched, master_file := .entries s.master }
    else
      let master := dict_insert s.master (detailsKey link) pdf_urls
      { master := master
        master_file := .entries master
        cargo_file := update_exam_with_pdf_urls s.cargo_file link pdf_urls
        fetched := fetched }

/-- `process_cargo` (source lines 180–258) on the structured navigation
results: load the master file, then run the exam loop over the references
extracted from the listing page. -/
def process_cargo (detail : String → List String) (links : List ExamDetails)
    (master_file : MasterFile) (cargo_file : CargoFile) : CrawlState :=
  links.foldl (process_exam_step detail) ⟨load_master master_file, master_file, cargo_file, []⟩

/-- One `<a>` element as seen by the `page.evaluate` script of
`extract_pdf_urls`: its visible text (`link.textContent`) and its raw
`href` attribute (`link.getAttribute("href")`, `none` when the attribute
is absent, matching the JavaScript `null`). -/
structure PageLink where
  text : String
  href : Option String
deriving DecidableEq, Repr

/-- A loaded exam detail page as far as the script observes it:
`window.location.origin` and the list of all `<a>` elements in document
order (`document.querySelectorAll("a")`). -/
structure DetailPage where
  origin : String
  links : List PageLink
deriving DecidableEq, Repr

/-- Substring occurrence test over character lists, modelling the
JavaScript `String.prototype.includes`. -/
def char_sub : List Char → List Char → Bool
  | hay, pat =>
    match hay with
    | [] => pat.isEmpty
    | _ :: t => pat.isPrefixOf hay || char_sub t pat

/-- JavaScript `s.includes(pat)` on strings. -/
def str_contains (s pat : String) : Bool :=
  char_sub s.data pat.data

/-- JavaScript `s.startsWith(pat)`. -/
def str_starts_with (s pat : String) : Bool :=
  pat.data.isPrefixOf s.data

/-- URL fixing at source lines 47–51 and 62–66: an `href` that starts with
`"http"` is kept, anything else is prefixed with the page's origin. -/
def resolve_href (origin href : String) : String :=
  if str_starts_with href "http" then href else origin ++ href

/-- First collection pass of the script (source lines 41–54): hyperlinks
whose visible text contains `"Baixar"` and whose `href` attribute is
present and contains `".pdf"`, resolved against the origin, in document
order. -/
def collect_baixar_pdf (origin : String) : List PageLink → List String
  | [] => []
  | l :: ls =>
    if str_contains l.text "Baixar" then
      match l.href with
      | some h =>
        if str_contains h ".pdf" then resolve_href origin h :: collect_baixar_pdf origin ls
        else collect_baixar_pdf origin ls
      | none => collect_baixar_pdf origin ls
    else collect_baixar_pdf origin ls

/-- Fallback collection pass of the script (source lines 57–69): every
hyperlink whose `href` attribute is present and contains `".pdf"`,
regardless of text. -/
def collect_all_pdf (origin : String) : List PageLink → List String
  | [] => []
  | l :: ls =>
    match l.href with
    | some h =>
      if str_contains h ".pdf" then resolve_href origin h :: collect_all_pdf origin ls
      else collect_all_pdf origin ls
    | none => collect_all_pdf origin ls

/-- De-duplication worker for `[...new Set(pdfLinks)]` (source line 72): a
JavaScript `Set` keeps the first occurrence of each value in insertion
order; `seen` holds the values already emitted. -/
def dedup_go (seen : List String) : List String → List String
  | [] => []
  | x :: xs => if x ∈ seen then dedup_go seen xs else x :: dedup_go (seen ++ [x]) xs

/-- `[...new Set(pdfLinks)]` (source line 72). -/
def dedup_insertion_order (l : List String) : List String :=
  dedup_go [] l

/-- The whole `page.evaluate` script of `extract_pdf_urls` (source lines
35–73): first pass, fallback pass when the first pass found nothing, then
de-duplication. -/
def extract_pdf_urls_script (page : DetailPage) : List String :=
  let pdfLinks := collect_baixar_pdf page.origin page.links
  let pdfLinks := if pdfLinks.isEmpty then collect_all_pdf page.origin page.links else pdfLinks
  dedup_insertion_order pdfLinks

/-- Outcome of an operation that begins with a `page.goto` navigation:
how many navigation attempts it performed, and its value when navigation
succeeded (`none` models the playwright exception propagating to the
caller, since the source wraps `page.goto` in no handler and no retry). -/
structure NavOutcome (α : Type) where
  attempts : Nat
  result : Option α
deriving DecidableEq, Repr

/-- `extract_pdf_urls` (source lines 28–75): a single `page.goto` (line
32) with no retry loop and no exception handler, followed by the
extraction script on the loaded page. -/
def extract_pdf_urls (fetch : String → Option DetailPage) (exam_url : String) :
    NavOutcome (List String) :=
  { attempts := 1, result := (fetch exam_url).map extract_pdf_urls_script }

/-- `extract_exam_links` (source lines 144–177): a single `page.goto`
(line 148) with no retry loop and no exception handler, followed by the
row-extraction script, whose structured result the fetch oracle supplies
directly. -/
def extract_exam_links (fetch : String → Option (List ExamDetails)) (cargo_url : String) :
    NavOutcome (List ExamDetails) :=
  { attempts := 1, result := fetch cargo_url }

/-- The exam loop of `process_cargo` under fallible detail-page
navigation: the playwright exception from a failed `page.goto` inside
`extract_pdf_urls` propagates out of the loop (there is no `try/except`
around line 234), abandoning the remaining exams. -/
def run_exams_nav (fetch : String → Option DetailPage) :
    List ExamDetails → CrawlState → Except Unit CrawlState
  | [], s => .ok s
  | link :: rest, s =>
    if dict_contains s.master (detailsKey link) then run_exams_nav fetch rest s
    else
      match (extract_pdf_urls fetch link.url).result with
      | none => .error ()
      | some pdf_urls =>
        let fetched := s.fetched ++ [link.url]
        if pdf_urls.isEmpty then
          run_exams_nav fetch rest { s with fetched := fetched, master_file := .entries s.master }
        else
          let master := dict_insert s.master (detailsKey link) pdf_urls
          run_exams_nav fetch rest
            { master := master
              master_file := .entries master
              cargo_file := update_exam_with_pdf_urls s.cargo_file link pdf_urls
              fetched := fetched }

/-- `process_cargo` under fallible navigation (source lines 180–258): a
failed navigation in `extract_exam_links` (line 203) or in any
`extract_pdf_urls` call (line 234) propagates, halting the cargo. -/
def process_cargo_nav (fetchListing : String → Option (List ExamDetails))
    (fetchDetail : String → Option DetailPage) (cargo_url : String)
    (master_file : MasterFile) (cargo_file : CargoFile) : Except Unit CrawlState :=
  match (extract_exam_links fetchListing cargo_url).result with
  | none => .error ()
  | some links =>
    run_exams_nav fetchDetail links ⟨load_master master_file, master_file, cargo_file, []⟩

/-- In-place rewrite of a JSON file (source lines 135–136 and 249–250):
`open(path, "w")` truncates the file to empty immediately, and
`json.dump` then writes the serialized text incrementally, so the file
contents observable if the process stops mid-write are the empty string
followed by every prefix of the new text, ending with the full text. -/
def in_place_write_states (new_content : String) : List String :=
  (List.range (new_content.data.length + 1)).map (fun k => String.mk (new_content.data.take k))

/-- Atomicity from the caller's perspective: an interrupted flush never
exposes a file content other than the previous one or the new one. -/
def flush_is_atomic (old_content new_content : String) : Prop :=
  ∀ s ∈ in_place_write_states new_content, s = old_content ∨ s = new_content

/-- Claim-side test (spec section 4.3 step 1): a hyperlink whose visible
text contains the download marker and whose target contains the document
marker. -/
def baixar_pdf_link (l : PageLink) : Bool :=
  str_contains l.text "Baixar" &&
    (match l.href with
     | some h => str_contains h ".pdf"
     | none => false)

/-- Claim-side test (spec section 4.3 step 2): any hyperlink whose target
contains the document marker, regardless of text. -/
def any_pdf_link (l : PageLink) : Bool :=
  match l.href with
  | some h => str_contains h ".pdf"
  | none => false

/-- Claim-side resolution of one hyperlink's target against the page
origin (spec section 4.3 step 3). -/
def resolve_link (origin : String) (l : PageLink) : Option String :=
  l.href.map (resolve_href origin)

/-- Claim-side formulation of de-duplication preserving first-seen order
(spec section 4.3 step 4): keep each value and drop every later equal
value. -/
def keep_first_occurrences (l : List String) : List String :=
  l.foldr (fun x acc => x :: acc.filter (fun y => !(y == x))) []

/-- Sample exam reference used by concrete witnesses and counterexamples. -/
def exD : ExamDetails :=
  ⟨"https://site/e1", "Enfermeiro", "2020", "Prefeitura X", "FCC", "Superior"⟩

/-- Sample reference whose `position` field contains the literal key
separator. -/
def colA : ExamDetails := ⟨"https://site/e1", "A - B", "2020", "C", "", ""⟩

/-- Sample reference with a triple distinct from `colA` but the same
concatenated key (the separator moved into `agency`). -/
def colB : ExamDetails := ⟨"https://site/e2", "A", "2020", "B - C", "", ""⟩

/-- A sequence of upserts applied to the empty dataset, modelling the
dataset built up over a crawl by `update_exam_with_pdf_urls`. -/
def upsert_sequence (ops : List (ExamDetails × List String)) : List ExamRecord :=
  ops.foldl (fun l op => upsert_exam l op.1 op.2) []

/-- Durability relation between the in-memory master dict and its persisted
file: the file, once reloaded, yields exactly the in-memory dict. -/
def persisted_matches (s : CrawlState) : Prop :=
  load_master s.master_file = s.master

/-- Bool test that a stored record's key differs from the incoming key,
used to phrase the first-match split of the merge loop. -/
def key_differs (d : ExamDetails) (r : ExamRecord) : Bool :=
  recordKey r != detailsKey d

/-- Merge semantics of `update_exam_with_pdf_urls` as the spec section 4.4
would have to read to match the code: the first stored record with the
incoming key has its detail fields replaced and its `PdfUrls` set to the
given list unconditionally; records other than the first match are
untouched; with no match the new record is appended. -/
def upsert_spec (l : List ExamRecord) (d : ExamDetails) (u : List String) : List ExamRecord :=
  match l.dropWhile (key_differs d) with
  | [] => l ++ [⟨d, some u⟩]
  | _ :: rest => l.takeWhile (key_differs d) ++ ⟨d, some u⟩ :: rest

theorem key_differs_false {d : ExamDetails} {r : ExamRecord}
    (h : recordKey r = detailsKey d) : key_differs d r = false := by
  simp [key_differs, h]

theorem key_differs_true {d : ExamDetails} {r : ExamRecord}
    (h : ¬ recordKey r = detailsKey d) : key_differs d r = true := by
  simp [key_differs, h]

theorem upsert_exam_eq_spec (l : List ExamRecord) (d : ExamDetails) (u : List String) :
    upsert_exam l d u = upsert_spec l d u := by
  induction l with
  | nil => simp [upsert_exam, upsert_spec]
  | cons r rest ih =>
    by_cases h : recordKey r = detailsKey d
    · simp [upsert_exam, upsert_spec, h, List.dropWhile_cons, List.takeWhile_cons,
        key_differs_false h]
    · have hk := key_differs_true h
      have h1 : upsert_exam (r :: rest) d u = r :: upsert_exam rest d u := by
        simp [upsert_exam, h]
      rw [h1, ih]
      cases hrest : rest.dropWhile (key_differs d) with
      | nil =>
        simp [upsert_spec, List.dropWhile_cons, List.takeWhile_cons, hk, hrest]
      | cons y ys =>
        simp [upsert_spec, List.dropWhile_cons, List.takeWhile_cons, hk, hrest]

/-- Claim C3, counterexample: when the stored record for the key already
carries a `PdfUrls` field, `update_exam_with_pdf_urls` does not leave it
untouched — the call replaces `["https://site/old.pdf"]` with the freshly
passed `["https://site/new.pdf"]`. -/
theorem c3_counterexample :
    update_exam_with_pdf_urls (.records [⟨exD, some ["https://site/old.pdf"]⟩]) exD
        ["https://site/new.pdf"]
      = .records [⟨exD, some ["https://site/new.pdf"]⟩]
    ∧ update_exam_with_pdf_urls (.records [⟨exD, some ["https://site/old.pdf"]⟩]) exD
        ["https://site/new.pdf"]
      ≠ .records [⟨exD, some ["https://site/old.pdf"]⟩] :=
  ⟨rfl, by decide⟩

/-- Claim C3 (amended): on a key hit, `update_exam_with_pdf_urls` replaces
the first matching record's detail fields with the reference and
unconditionally sets its `PdfUrls` to the given list, whether or not the
record already carried one; all other records are unchanged; with no hit
it appends the reference plus the list; the load phase recovers from every
malformed-file case. -/
theorem c3_upsert_merge_semantics (file : CargoFile) (d : ExamDetails) (u : List String) :
    update_exam_with_pdf_urls file d u = .records (upsert_spec (load_exams_list file) d u) := by
  unfold update_exam_with_pdf_urls
  rw [upsert_exam_eq_spec]

theorem dict_contains_append_left {m : Master} {k : String}
    (h : dict_contains m k = true) (m' : Master) : dict_contains (m ++ m') k = true := by
  simp only [dict_contains, List.any_append]
  simp only [dict_contains] at h
  simp [h]

theorem dict_insert_not_contains {m : Master} {k' : String} (v : List String)
    (h : dict_contains m k' = false) : dict_insert m k' v = m ++ [(k', v)] := by
  induction m with
  | nil => rfl
  | cons kv rest ih =>
    have h1 : ¬ kv.1 = k' := by
      intro he
      simp [dict_contains, List.any_cons, he] at h
    have h2 : dict_contains rest k' = false := by
      simp only [dict_contains, List.any_cons, Bool.or_eq_false_iff] at h
      exact h.2
    simp only [dict_insert, if_neg h1, ih h2, List.cons_append]

theorem dict_contains_insert_self (m : Master) (k : String) (v : List String) :
    dict_contains (dict_insert m k v) k = true := by
  induction m with
  | nil => simp [dict_insert, dict_contains]
  | cons kv rest ih =>
    by_cases hk : kv.1 = k
    · simp [dict_insert, hk, dict_contains]
    · simp only [dict_insert, if_neg hk, dict_contains, List.any_cons]
      simp only [dict_contains] at ih
      simp [ih]

theorem dict_lookup_append {m : Master} {k : String} {v : List String}
    (h : dict_lookup m k = some v) (m' : Master) : dict_lookup (m ++ m') k = some v := by
  induction m with
  | nil => simp [dict_lookup] at h
  | cons kv rest ih =>
    by_cases hk : kv.1 = k
    · simp only [dict_lookup, if_pos hk] at h
      simp [dict_lookup, hk, h]
    · simp only [dict_lookup, if_neg hk] at h
      simp only [List.cons_append, dict_lookup, if_neg hk]
      exact ih h

/-- Shape of a skipped step (key already in the master dict): the state is
untouched. -/
theorem step_skip (detail : String → List String) (s : CrawlState) (l : ExamDetails)
    (hc : dict_contains s.master (detailsKey l) = true) :
    process_exam_step detail s l = s := by
  simp [process_exam_step, hc]

/-- Shape of a fetched step with empty extraction result: only the fetch
trace grows and the unchanged master dict is flushed. -/
theorem step_empty (detail : String → List String) (s : CrawlState) (l : ExamDetails)
    (hc : dict_contains s.master (detailsKey l) = false)
    (he : (detail l.url).isEmpty = true) :
    process_exam_step detail s l
      = { s with fetched := s.fetched ++ [l.url], master_file := .entries s.master } := by
  simp [process_exam_step, hc, he]

/-- Shape of a fetched step with non-empty extraction result: the master
dict gains the key, both files are rewritten, the fetch trace grows. -/
theorem step_found (detail : String → List String) (s : CrawlState) (l : ExamDetails)
    (hc : dict_contains s.master (detailsKey l) = false)
    (he : (detail l.url).isEmpty = false) :
    process_exam_step detail s l
      = ⟨dict_insert s.master (detailsKey l) (detail l.url),
         .entries (dict_insert s.master (detailsKey l) (detail l.url)),
         update_exam_with_pdf_urls s.cargo_file l (detail l.url),
         s.fetched ++ [l.url]⟩ := by
  simp [process_exam_step, hc, he]

/-- A key present in the master dict stays present across one step. -/
theorem step_master_mono (detail : String → List String) (s : CrawlState) (l : ExamDetails)
    (k : String) (h : dict_contains s.master k = true) :
    dict_contains (process_exam_step detail s l).master k = true := by
  cases hc : dict_contains s.master (detailsKey l) with
  | true => rw [step_skip detail s l hc]; exact h
  | false =>
    cases he : (detail l.url).isEmpty with
    | true => rw [step_empty detail s l hc he]; exact h
    | false =>
      rw [step_found detail s l hc he]
      show dict_contains (dict_insert s.master (detailsKey l) (detail l.url)) k = true
      rw [dict_insert_not_contains _ hc]
      exact dict_contains_append_left h _

/-- A key present in the master dict stays present across the whole loop. -/
theorem run_master_mono (detail : String → List String) :
    ∀ (ls : List ExamDetails) (s : CrawlState) (k : String),
      dict_contains s.master k = true →
      dict_contains ((ls.foldl (process_exam_step detail) s)).master k = true := by
  intro ls
  induction ls with
  | nil => intro s k h; exact h
  | cons l rest ih =>
    intro s k h
    exact ih _ k (step_master_mono detail s l k h)

/-- A master binding is preserved across one step (steps only append
fresh keys). -/
theorem step_lookup_mono (detail : String → List String) (s : CrawlState) (l : ExamDetails)
    (k : String) (v : List String) (h : dict_lookup s.master k = some v) :
    dict_lookup (process_exam_step detail s l).master k = some v := by
  cases hc : dict_contains s.master (detailsKey l) with
  | true => rw [step_skip detail s l hc]; exact h
  | false =>
    cases he : (detail l.url).isEmpty with
    | true => rw [step_empty detail s l hc he]; exact h
    | false =>
      rw [step_found detail s l hc he]
      show dict_lookup (dict_insert s.master (detailsKey l) (detail l.url)) k = some v
      rw [dict_insert_not_contains _ hc]
      exact dict_lookup_append h _

/-- A master binding is preserved across the whole loop. -/
theorem run_lookup_mono (detail : String → List String) :
    ∀ (ls : List ExamDetails) (s : CrawlState) (k : String) (v : List String),
      dict_lookup s.master k = some v →
      dict_lookup ((ls.foldl (process_exam_step detail) s)).master k = some v := by
  intro ls
  induction ls with
  | nil => intro s k v h; exact h
  | cons l rest ih =>
    intro s k v h
    exact ih _ k v (step_lookup_mono detail s l k v h)

/-- Durability invariant: each step leaves the persisted master file
loading back to the in-memory master dict. -/
theorem step_persisted (detail : String → List String) (s : CrawlState) (l : ExamDetails)
    (h : persisted_matches s) : persisted_matches (process_exam_step detail s l) := by
  cases hc : dict_contains s.master (detailsKey l) with
  | true => rw [step_skip detail s l hc]; exact h
  | false =>
    cases he : (detail l.url).isEmpty with
    | true => rw [step_empty detail s l hc he]; rfl
    | false => rw [step_found detail s l hc he]; rfl

theorem run_persisted (detail : String → List String) :
    ∀ (ls : List ExamDetails) (s : CrawlState),
      persisted_matches s →
      persisted_matches (ls.foldl (process_exam_step detail) s) := by
  intro ls
  induction ls with
  | nil => intro s h; exact h
  | cons l rest ih => intro s h; exact ih _ (step_persisted detail s l h)

/-- Every `process_cargo` result satisfies the durability invariant. -/
theorem process_cargo_persisted (detail : String → List String) (links : List ExamDetails)
    (mf : MasterFile) (cf : CargoFile) :
    persisted_matches (process_cargo detail links mf cf) :=
  run_persisted detail links _ rfl

/-- A record whose key differs from the upserted key survives the upsert. -/
theorem mem_upsert_of_ne {r : ExamRecord} {l : List ExamRecord} {d : ExamDetails}
    (u : List String) (hr : r ∈ l) (hk : ¬ recordKey r = detailsKey d) :
    r ∈ upsert_exam l d u := by
  induction l with
  | nil => cases hr
  | cons a rest ih =>
    rcases List.mem_cons.1 hr with h | h
    · by_cases ha : recordKey a = detailsKey d
      · exact absurd (h ▸ ha) hk
      · subst h
        simp [upsert_exam, ha]
    · by_cases ha : recordKey a = detailsKey d
      · simp only [upsert_exam, if_pos ha]
        exact List.mem_cons_of_mem _ h
      · simp only [upsert_exam, if_neg ha]
        exact List.mem_cons_of_mem _ (ih h)

/-- A stored record whose key is already in the master dict is never
touched again: it survives one step, and its key stays in the dict. -/
theorem step_cargo_preserved (detail : String → List String) (s : CrawlState)
    (l : ExamDetails) (r : ExamRecord) (hr : r ∈ load_exams_list s.cargo_file)
    (hk : dict_contains s.master (recordKey r) = true) :
    r ∈ load_exams_list (process_exam_step detail s l).cargo_file
    ∧ dict_contains (process_exam_step detail s l).master (recordKey r) = true := by
  refine ⟨?_, step_master_mono detail s l _ hk⟩
  cases hc : dict_contains s.master (detailsKey l) with
  | true => rw [step_skip detail s l hc]; exact hr
  | false =>
    cases he : (detail l.url).isEmpty with
    | true => rw [step_empty detail s l hc he]; exact hr
    | false =>
      rw [step_found detail s l hc he]
      show r ∈ load_exams_list (update_exam_with_pdf_urls s.cargo_file l (detail l.url))
      have hne : ¬ recordKey r = detailsKey l := by
        intro he'
        rw [he'] at hk
        rw [hk] at hc
        cases hc
      exact mem_upsert_of_ne _ hr hne

theorem run_cargo_preserved (detail : String → List String) :
    ∀ (ls : List ExamDetails) (s : CrawlState) (r : ExamRecord),
      r ∈ load_exams_list s.cargo_file →
      dict_contains s.master (recordKey r) = true →
      r ∈ load_exams_list ((ls.foldl (process_exam_step detail) s)).cargo_file := by
  intro ls
  induction ls with
  | nil => intro s r hr _; exact hr
  | cons l rest ih =>
    intro s r hr hk
    obtain ⟨hr', hk'⟩ := step_cargo_preserved detail s l r hr hk
    exact ih _ r hr' hk'

/-- Every URL the loop navigates to belongs to a pending reference whose
key was absent from the starting master dict. -/
theorem run_fetched_from (detail : String → List String) :
    ∀ (ls : List ExamDetails) (s : CrawlState) (u : String),
      u ∈ ((ls.foldl (process_exam_step detail) s)).fetched →
      u ∈ s.fetched
      ∨ ∃ l, l ∈ ls ∧ l.url = u ∧ dict_contains s.master (detailsKey l) = false := by
  intro ls
  induction ls with
  | nil => intro s u hu; exact Or.inl hu
  | cons l rest ih =>
    intro s u hu
    rcases ih (process_exam_step detail s l) u hu with h | ⟨l', hl', hurl, hcon⟩
    · cases hc : dict_contains s.master (detailsKey l) with
      | true =>
        rw [step_skip detail s l hc] at h
        exact Or.inl h
      | false =>
        have hf : (process_exam_step detail s l).fetched = s.fetched ++ [l.url] := by
          cases he : (detail l.url).isEmpty with
          | true => rw [step_empty detail s l hc he]
          | false => rw [step_found detail s l hc he]
        rw [hf] at h
        rcases List.mem_append.1 h with h | h
        · exact Or.inl h
        · refine Or.inr ⟨l, List.mem_cons_self _ _, ?_, hc⟩
          exact (List.mem_singleton.1 h).symm
    · refine Or.inr ⟨l', List.mem_cons_of_mem _ hl', hurl, ?_⟩
      cases hcs : dict_contains s.master (detailsKey l') with
      | true => rw [step_master_mono detail s l _ hcs] at hcon; cases hcon
      | false => rfl

/-- After the loop, every reference in the processed list either has its
key in the final master dict or its detail page extracts nothing. -/
theorem run_covered (detail : String → List String) :
    ∀ (ls : List ExamDetails) (s : CrawlState) (l : ExamDetails), l ∈ ls →
      dict_contains ((ls.foldl (process_exam_step detail) s)).master (detailsKey l) = true
      ∨ detail l.url = [] := by
  intro ls
  induction ls with
  | nil => intro s l hl; cases hl
  | cons a rest ih =>
    intro s l hl
    rcases List.mem_cons.1 hl with h | h
    · subst h
      cases hc : dict_contains s.master (detailsKey l) with
      | true =>
        left
        rw [List.foldl_cons, step_skip detail s l hc]
        exact run_master_mono detail rest s _ hc
      | false =>
        cases he : (detail l.url).isEmpty with
        | true =>
          right
          exact List.isEmpty_iff.1 he
        | false =>
          left
          rw [List.foldl_cons, step_found detail s l hc he]
          refine run_master_mono detail rest _ _ ?_
          exact dict_contains_insert_self _ _ _
    · rw [List.foldl_cons]
      exact ih (process_exam_step detail s a) l h

/-- A loop run from a state whose master dict already covers every pending
reference (each key present or each detail page empty) changes neither the
master dict nor the cargo file, and keeps the persisted master loading
back to the same dict. -/
theorem run_stationary (detail : String → List String) :
    ∀ (ls : List ExamDetails) (s : CrawlState),
      persisted_matches s →
      (∀ l ∈ ls, dict_contains s.master (detailsKey l) = true ∨ detail l.url = []) →
      ((ls.foldl (process_exam_step detail) s)).master = s.master
      ∧ ((ls.foldl (process_exam_step detail) s)).cargo_file = s.cargo_file
      ∧ load_master ((ls.foldl (process_exam_step detail) s)).master_file = s.master := by
  intro ls
  induction ls with
  | nil => intro s hp _; exact ⟨rfl, rfl, hp⟩
  | cons l rest ih =>
    intro s hp hcov
    rcases hcov l (List.mem_cons_self _ _) with hc | he
    · rw [List.foldl_cons, step_skip detail s l hc]
      exact ih s hp fun l' hl' => hcov l' (List.mem_cons_of_mem _ hl')
    · cases hc : dict_contains s.master (detailsKey l) with
      | true =>
        rw [List.foldl_cons, step_skip detail s l hc]
        exact ih s hp fun l' hl' => hcov l' (List.mem_cons_of_mem _ hl')
      | false =>
        have hee : (detail l.url).isEmpty = true := by
          rw [he]; rfl
        rw [List.foldl_cons, step_empty detail s l hc hee]
        have := ih { s with fetched := s.fetched ++ [l.url], master_file := .entries s.master }
          rfl (fun l' hl' => hcov l' (List.mem_cons_of_mem _ hl'))
        exact this

/-- Claim C4: the master dict is flushed in the same step as every detail
fetch and merge, and resuming from the state persisted after any prefix of
the exam list (a crash immediately after that prefix's last flush)
(1) navigates only to detail pages of references whose keys the crashed
run had not yet flushed, so no merged exam is re-fetched, (2) preserves
every flushed master binding, (3) preserves every stored cargo record
whose key was flushed, and (4) ends with the persisted master file again
loading back to the final in-memory dict. -/
theorem c4_crash_resume (detail : String → List String) (links : List ExamDetails)
    (mf0 : MasterFile) (cf0 : CargoFile) (k : Nat) :
    (∀ (s : CrawlState) (l : ExamDetails),
      dict_contains s.master (detailsKey l) = false →
      (process_exam_step detail s l).master_file
        = .entries (process_exam_step detail s l).master)
    ∧ (∀ u ∈ (process_cargo detail links
          (process_cargo detail (links.take k) mf0 cf0).master_file
          (process_cargo detail (links.take k) mf0 cf0).cargo_file).fetched,
        ∃ l, l ∈ links ∧ l.url = u
          ∧ dict_contains (process_cargo detail (links.take k) mf0 cf0).master
              (detailsKey l) = false)
    ∧ (∀ (key : String) (v : List String),
        dict_lookup (process_cargo detail (links.take k) mf0 cf0).master key = some v →
        dict_lookup (process_cargo detail links
            (process_cargo detail (links.take k) mf0 cf0).master_file
            (process_cargo detail (links.take k) mf0 cf0).cargo_file).master key = some v)
    ∧ (∀ rec ∈ load_exams_list (process_cargo detail (links.take k) mf0 cf0).cargo_file,
        dict_contains (process_cargo detail (links.take k) mf0 cf0).master
            (recordKey rec) = true →
        rec ∈ load_exams_list (process_cargo detail links
            (process_cargo detail (links.take k) mf0 cf0).master_file
            (process_cargo detail (links.take k) mf0 cf0).cargo_file).cargo_file)
    ∧ load_master (process_cargo detail links
          (process_cargo detail (links.take k) mf0 cf0).master_file
          (process_cargo detail (links.take k) mf0 cf0).cargo_file).master_file
        = (process_cargo detail links
            (process_cargo detail (links.take k) mf0 cf0).master_file
            (process_cargo detail (links.take k) mf0 cf0).cargo_file).master := by
  have hper : persisted_matches (process_cargo detail (links.take k) mf0 cf0) :=
    process_cargo_persisted detail (links.take k) mf0 cf0
  refine ⟨?_, ?_, ?_, ?_, process_cargo_persisted detail links _ _⟩
  · intro s l hc
    cases he : (detail l.url).isEmpty with
    | true => rw [step_empty detail s l hc he]
    | false => rw [step_found detail s l hc he]
  · intro u hu
    rcases run_fetched_from detail links
        ⟨load_master (process_cargo detail (links.take k) mf0 cf0).master_file,
         (process_cargo detail (links.take k) mf0 cf0).master_file,
         (process_cargo detail (links.take k) mf0 cf0).cargo_file, []⟩ u hu
      with h | ⟨l, hl, hurl, hcon⟩
    · cases h
    · refine ⟨l, hl, hurl, ?_⟩
      have hcon' : dict_contains
          (load_master (process_cargo detail (links.take k) mf0 cf0).master_file)
          (detailsKey l) = false := hcon
      rw [← hper]
      exact hcon'
  · intro key v h
    refine run_lookup_mono detail links
      ⟨load_master (process_cargo detail (links.take k) mf0 cf0).master_file,
       (process_cargo detail (links.take k) mf0 cf0).master_file,
       (process_cargo detail (links.take k) mf0 cf0).cargo_file, []⟩ key v ?_
    show dict_lookup (load_master (process_cargo detail (links.take k) mf0 cf0).master_file)
      key = some v
    rw [hper]
    exact h
  · intro rec hrec hcon
    refine run_cargo_preserved detail links
      ⟨load_master (process_cargo detail (links.take k) mf0 cf0).master_file,
       (process_cargo detail (links.take k) mf0 cf0).master_file,
       (process_cargo detail (links.take k) mf0 cf0).cargo_file, []⟩ rec hrec ?_
    show dict_contains (load_master (process_cargo detail (links.take k) mf0 cf0).master_file)
      (recordKey rec) = true
    rw [hper]
    exact hcon

/-- Witness for claim C4 at a concrete one-exam crawl: resuming after the
crash preserves the flushed master binding. -/
theorem c4_witness :
    dict_lookup (process_cargo (fun _ => ["https://site/a.pdf"]) [exD]
        (process_cargo (fun _ => ["https://site/a.pdf"]) ([exD].take 1) .missing
          .missing).master_file
        (process_cargo (fun _ => ["https://site/a.pdf"]) ([exD].take 1) .missing
          .missing).cargo_file).master
      "Enfermeiro - Prefeitura X - 2020" = some ["https://site/a.pdf"] :=
  (c4_crash_resume (fun _ => ["https://site/a.pdf"]) [exD] .missing .missing 1).2.2.1
    "Enfermeiro - Prefeitura X - 2020" ["https://site/a.pdf"] (by decide)

/-- Claim C5: re-running the crawl over the same navigation responses from
the state persisted by a first run reproduces that run's final dataset
exactly — the in-memory master dict, the cargo record file, and the
reloaded master file all coincide with the first run's, so no duplicate is
created and no stored URL list is lost. -/
theorem c5_idempotent_rerun (detail : String → List String) (links : List ExamDetails)
    (mf0 : MasterFile) (cf0 : CargoFile) :
    (process_cargo detail links (process_cargo detail links mf0 cf0).master_file
        (process_cargo detail links mf0 cf0).cargo_file).master
      = (process_cargo detail links mf0 cf0).master
    ∧ (process_cargo detail links (process_cargo detail links mf0 cf0).master_file
        (process_cargo detail links mf0 cf0).cargo_file).cargo_file
      = (process_cargo detail links mf0 cf0).cargo_file
    ∧ load_master (process_cargo detail links (process_cargo detail links mf0 cf0).master_file
        (process_cargo detail links mf0 cf0).cargo_file).master_file
      = load_master (process_cargo detail links mf0 cf0).master_file := by
  have hper : persisted_matches (process_cargo detail links mf0 cf0) :=
    process_cargo_persisted detail links mf0 cf0
  have hcov : ∀ l ∈ links,
      dict_contains (process_cargo detail links mf0 cf0).master (detailsKey l) = true
      ∨ detail l.url = [] := by
    intro l hl
    exact run_covered detail links _ l hl
  have hcov2 : ∀ l ∈ links,
      dict_contains (load_master (process_cargo detail links mf0 cf0).master_file)
        (detailsKey l) = true
      ∨ detail l.url = [] := by
    intro l hl
    rw [hper]
    exact hcov l hl
  have hst := run_stationary detail links
    ⟨load_master (process_cargo detail links mf0 cf0).master_file,
     (process_cargo detail links mf0 cf0).master_file,
     (process_cargo detail links mf0 cf0).cargo_file, []⟩ rfl hcov2
  refine ⟨?_, ?_, ?_⟩
  · calc (process_cargo detail links (process_cargo detail links mf0 cf0).master_file
          (process_cargo detail links mf0 cf0).cargo_file).master
        = load_master (process_cargo detail links mf0 cf0).master_file := hst.1
      _ = (process_cargo detail links mf0 cf0).master := hper
  · exact hst.2.1
  · exact hst.2.2

/-- The key multiset of a dataset after an upsert: unchanged when the key
was already present (the first match is replaced in place by a record with
the same key), extended by the key otherwise (append). -/
theorem map_recordKey_upsert (l : List ExamRecord) (d : ExamDetails) (u : List String) :
    (upsert_exam l d u).map recordKey
      = if detailsKey d ∈ l.map recordKey then l.map recordKey
        else l.map recordKey ++ [detailsKey d] := by
  induction l with
  | nil => simp [upsert_exam, recordKey]
  | cons r rest ih =>
    by_cases h : recordKey r = detailsKey d
    · have h1 : detailsKey r.details = detailsKey d := h
      have hmem : detailsKey d ∈ (r :: rest).map recordKey := by
        simp [recordKey, h1]
      have hup : upsert_exam (r :: rest) d u = ⟨d, some u⟩ :: rest := by
        simp only [upsert_exam]
        rw [if_pos h]
      rw [hup, if_pos hmem]
      simp [recordKey, h1]
    · have h' : ¬ detailsKey d = recordKey r := fun he => h he.symm
      simp only [upsert_exam, if_neg h, List.map_cons, ih, List.mem_cons, h', false_or]
      by_cases hm : detailsKey d ∈ rest.map recordKey
      · simp [hm]
      · simp [hm]

/-- An upsert never creates a duplicate key: the key list stays without
duplicates. -/
theorem nodup_keys_upsert (l : List ExamRecord) (d : ExamDetails) (u : List String)
    (hn : (l.map recordKey).Nodup) : ((upsert_exam l d u).map recordKey).Nodup := by
  rw [map_recordKey_upsert]
  by_cases h : detailsKey d ∈ l.map recordKey
  · simpa [h] using hn
  · simpa [h, List.nodup_append] using hn

/-- After an upsert its key is present. -/
theorem key_mem_upsert (l : List ExamRecord) (d : ExamDetails) (u : List String) :
    detailsKey d ∈ (upsert_exam l d u).map recordKey := by
  rw [map_recordKey_upsert]
  by_cases h : detailsKey d ∈ l.map recordKey
  · simp [h]
  · simp [h]

/-- Claim C6: with the identity-key invariant holding of the dataset, two
references with equal `(position, agency, year)` triples upserted in turn
leave exactly one record with that key, the invariant is preserved, and a
dataset built from the empty one by any sequence of upserts never holds
two records sharing a key. -/
theorem c6_key_merge (l : List ExamRecord) (d1 d2 : ExamDetails) (u1 u2 : List String)
    (hn : (l.map recordKey).Nodup)
    (ht : (d1.position, d1.agency, d1.year) = (d2.position, d2.agency, d2.year)) :
    ((upsert_exam (upsert_exam l d1 u1) d2 u2).map recordKey).count (detailsKey d1) = 1
    ∧ ((upsert_exam (upsert_exam l d1 u1) d2 u2).map recordKey).Nodup
    ∧ ∀ ops, ((upsert_sequence ops).map recordKey).Nodup := by
  have htriple : d1.position = d2.position ∧ d1.agency = d2.agency ∧ d1.year = d2.year := by
    simpa using ht
  have hk : detailsKey d1 = detailsKey d2 := by
    simp [detailsKey, examKey, htriple.1, htriple.2.1, htriple.2.2]
  have hnodup2 : ((upsert_exam (upsert_exam l d1 u1) d2 u2).map recordKey).Nodup :=
    nodup_keys_upsert _ _ _ (nodup_keys_upsert _ _ _ hn)
  have hmem : detailsKey d1 ∈ (upsert_exam (upsert_exam l d1 u1) d2 u2).map recordKey := by
    rw [hk]
    exact key_mem_upsert _ _ _
  refine ⟨List.count_eq_one_of_mem hnodup2 hmem, hnodup2, ?_⟩
  have haux : ∀ (ops : List (ExamDetails × List String)) (start : List ExamRecord),
      (start.map recordKey).Nodup →
      ((ops.foldl (fun acc op => upsert_exam acc op.1 op.2) start).map recordKey).Nodup := by
    intro ops
    induction ops with
    | nil => intro start hs; simpa
    | cons op rest ih =>
      intro start hs
      exact ih _ (nodup_keys_upsert _ _ _ hs)
  intro ops
  exact haux ops [] (by simp)

/-- Witness for claim C6 at two concrete references sharing a triple. -/
theorem c6_witness :
    ((upsert_exam (upsert_exam [] exD ["https://site/a.pdf"])
        ⟨"https://site/e2", "Enfermeiro", "2020", "Prefeitura X", "X", "Y"⟩
        ["https://site/b.pdf"]).map recordKey).count (detailsKey exD) = 1
    ∧ ((upsert_exam (upsert_exam [] exD ["https://site/a.pdf"])
        ⟨"https://site/e2", "Enfermeiro", "2020", "Prefeitura X", "X", "Y"⟩
        ["https://site/b.pdf"]).map recordKey).Nodup
    ∧ ∀ ops, ((upsert_sequence ops).map recordKey).Nodup :=
  c6_key_merge [] exD ⟨"https://site/e2", "Enfermeiro", "2020", "Prefeitura X", "X", "Y"⟩
    ["https://site/a.pdf"] ["https://site/b.pdf"] (by simp) rfl

/-- The first collection pass is the filter-then-resolve of spec section
4.3 step 1. -/
theorem collect_baixar_eq (origin : String) (ls : List PageLink) :
    collect_baixar_pdf origin ls
      = (ls.filter baixar_pdf_link).filterMap (resolve_link origin) := by
  induction ls with
  | nil => rfl
  | cons l ls ih =>
    cases hh : l.href with
    | none =>
      have hb : baixar_pdf_link l = false := by
        simp [baixar_pdf_link, hh]
      simp [collect_baixar_pdf, List.filter_cons, hb, hh, ih]
    | some h =>
      by_cases ht : str_contains l.text "Baixar" = true
      · by_cases hp : str_contains h ".pdf" = true
        · have hb : baixar_pdf_link l = true := by
            simp [baixar_pdf_link, hh, ht, hp]
          simp [collect_baixar_pdf, List.filter_cons, List.filterMap_cons, resolve_link,
            hb, hh, ht, hp, ih]
        · have hb : baixar_pdf_link l = false := by
            simp [baixar_pdf_link, hh, hp]
          simp [collect_baixar_pdf, List.filter_cons, hb, hh, ht, hp, ih]
      · have hb : baixar_pdf_link l = false := by
          simp [baixar_pdf_link, ht]
        simp [collect_baixar_pdf, List.filter_cons, hb, hh, ht, ih]

/-- The fallback pass is the filter-then-resolve of spec section 4.3
step 2. -/
theorem collect_all_eq (origin : String) (ls : List PageLink) :
    collect_all_pdf origin ls
      = (ls.filter any_pdf_link).filterMap (resolve_link origin) := by
  induction ls with
  | nil => rfl
  | cons l ls ih =>
    cases hh : l.href with
    | none =>
      have hb : any_pdf_link l = false := by
        simp [any_pdf_link, hh]
      simp [collect_all_pdf, List.filter_cons, hb, hh, ih]
    | some h =>
      by_cases hp : str_contains h ".pdf" = true
      · have hb : any_pdf_link l = true := by
          simp [any_pdf_link, hh, hp]
        simp [collect_all_pdf, List.filter_cons, List.filterMap_cons, resolve_link,
          hb, hh, hp, ih]
      · have hb : any_pdf_link l = false := by
          simp [any_pdf_link, hh, hp]
        simp [collect_all_pdf, List.filter_cons, hb, hh, hp, ih]

/-- The `Set`-based de-duplication relative to already-seen values equals
keep-first-occurrences filtered to unseen values. -/
theorem dedup_go_eq_keep (l : List String) : ∀ seen : List String,
    dedup_go seen l = (keep_first_occurrences l).filter (fun y => decide (¬ y ∈ seen)) := by
  induction l with
  | nil => intro seen; rfl
  | cons x xs ih =>
    intro seen
    have hkf : keep_first_occurrences (x :: xs)
        = x :: (keep_first_occurrences xs).filter (fun y => !(y == x)) := rfl
    by_cases hx : x ∈ seen
    · have hstep : dedup_go seen (x :: xs) = dedup_go seen xs := by
        simp [dedup_go, hx]
      rw [hstep, ih seen, hkf, List.filter_cons]
      have hpx : (decide (¬ x ∈ seen)) = false := by simp [hx]
      rw [hpx]
      simp only [Bool.false_eq_true, if_false]
      rw [List.filter_filter]
      refine List.filter_congr fun a _ => ?_
      by_cases ha : a ∈ seen
      · simp [ha]
      · have hax : ¬ a = x := fun he => ha (he ▸ hx)
        simp [ha, hax]
    · have hstep : dedup_go seen (x :: xs) = x :: dedup_go (seen ++ [x]) xs := by
        simp [dedup_go, hx]
      rw [hstep, ih (seen ++ [x]), hkf, List.filter_cons]
      have hpx : (decide (¬ x ∈ seen)) = true := by simp [hx]
      rw [hpx]
      simp only [if_true]
      rw [List.filter_filter]
      refine congrArg (x :: ·) ?_
      refine List.filter_congr fun a _ => ?_
      by_cases ha : a ∈ seen
      · simp [ha]
      · by_cases hax : a = x
        · simp [hax]
        · simp [ha, hax]

/-- `[...new Set(l)]` keeps exactly the first occurrence of each value. -/
theorem dedup_eq_keep_first (l : List String) :
    dedup_insertion_order l = keep_first_occurrences l := by
  rw [dedup_insertion_order, dedup_go_eq_keep]
  exact List.filter_eq_self.2 fun a _ => by simp

/-- Claim C9: the extraction script collects exactly the hyperlinks whose
text contains `"Baixar"` and whose target contains `".pdf"`; only when
that pass is empty does it collect every hyperlink whose target contains
`".pdf"`; each target is resolved against the page's own origin (the
relative `"/files/a.pdf"` on origin `"https://site"` becomes
`"https://site/files/a.pdf"`); and the result is de-duplicated by exact
string equality keeping the first occurrence in order. -/
theorem c9_detail_extraction (page : DetailPage) :
    extract_pdf_urls_script page
      = dedup_insertion_order
          (if ((page.links.filter baixar_pdf_link).filterMap (resolve_link page.origin)).isEmpty
           then (page.links.filter any_pdf_link).filterMap (resolve_link page.origin)
           else (page.links.filter baixar_pdf_link).filterMap (resolve_link page.origin))
    ∧ (∀ l, dedup_insertion_order l = keep_first_occurrences l)
    ∧ resolve_href "https://site" "/files/a.pdf" = "https://site/files/a.pdf" := by
  refine ⟨?_, dedup_eq_keep_first, rfl⟩
  unfold extract_pdf_urls_script
  rw [collect_baixar_eq, collect_all_eq]

/-- Claim C1, counterexample: a stored record carrying a `documentUrls`
(`PdfUrls`) field — here `["https://site/old.pdf"]` — does not stop
re-processing of a reference with the same key: with the key absent from
the master list, the crawl navigates to the detail page again
(`fetched = ["https://site/e1"]`) and overwrites the stored field. -/
theorem c1_counterexample :
    (process_cargo (fun _ => ["https://site/new.pdf"]) [exD] .missing
        (.records [⟨exD, some ["https://site/old.pdf"]⟩])).fetched = ["https://site/e1"]
    ∧ (process_cargo (fun _ => ["https://site/new.pdf"]) [exD] .missing
        (.records [⟨exD, some ["https://site/old.pdf"]⟩])).cargo_file
      = .records [⟨exD, some ["https://site/new.pdf"]⟩]
    ∧ (process_cargo (fun _ => ["https://site/new.pdf"]) [exD] .missing
        (.records [⟨exD, some ["https://site/old.pdf"]⟩])).cargo_file
      ≠ .records [⟨exD, some ["https://site/old.pdf"]⟩] :=
  ⟨rfl, rfl, by decide⟩

/-- Claim C1 (amended): the sole signal that an exam's detail page was
already fetched is the presence of its concatenated key in the master
`exam_pdf_urls` mapping, not the presence of a `documentUrls` field on the
stored record; when the key is present, processing the reference invokes
no Detail Extractor and leaves both stores and the in-memory state exactly
unchanged. -/
theorem c1_master_key_sticky (detail : String → List String) (link : ExamDetails)
    (mf : MasterFile) (cf : CargoFile)
    (h : dict_contains (load_master mf) (detailsKey link) = true) :
    process_cargo detail [link] mf cf = ⟨load_master mf, mf, cf, []⟩ := by
  simp [process_cargo, process_exam_step, h]

/-- Witness for claim C1's amended theorem: a key already in the master
list is skipped and the state is untouched. -/
theorem c1_witness :
    process_cargo (fun _ => ["https://site/new.pdf"]) [exD]
        (.entries [("Enfermeiro - Prefeitura X - 2020", ["https://site/a.pdf"])])
        (.records [])
      = ⟨[("Enfermeiro - Prefeitura X - 2020", ["https://site/a.pdf"])],
         .entries [("Enfermeiro - Prefeitura X - 2020", ["https://site/a.pdf"])],
         .records [], []⟩ :=
  c1_master_key_sticky (fun _ => ["https://site/new.pdf"]) exD
    (.entries [("Enfermeiro - Prefeitura X - 2020", ["https://site/a.pdf"])])
    (.records []) (by decide)

/-- Claim C2, counterexample: with a navigation that always fails, the
extraction operations perform one attempt, not three, and yield no empty
sequence — the failure propagates (`result = none`), and the orchestrator
run halts with the propagated error instead of proceeding past the failing
detail page. -/
theorem c2_counterexample :
    ¬ ((extract_pdf_urls (fun _ => none) "https://site/e1").attempts = 2 + 1
        ∧ (extract_pdf_urls (fun _ => none) "https://site/e1").result = some [])
    ∧ ¬ ((extract_exam_links (fun _ => none) "https://site/cargo").attempts = 2 + 1
        ∧ (extract_exam_links (fun _ => none) "https://site/cargo").result = some [])
    ∧ process_cargo_nav (fun _ => some [exD]) (fun _ => none) "https://site/cargo"
        .missing .missing = .error () := by
  refine ⟨?_, ?_, rfl⟩
  · rintro ⟨h, -⟩
    simp [extract_pdf_urls] at h
  · rintro ⟨h, -⟩
    simp [extract_exam_links] at h

/-- Claim C2 (amended): `extract_pdf_urls` and `extract_exam_links` wrap
`page.goto` in no retry loop and no handler, so a failing navigation is
attempted exactly once and the failure propagates as an exception instead
of an empty sequence, and `process_cargo` halts on it rather than
proceeding to the next item. -/
theorem c2_no_retry (fetchL : String → Option (List ExamDetails))
    (fetchD : String → Option DetailPage) (cargo_url exam_url : String)
    (mf : MasterFile) (cf : CargoFile)
    (hD : fetchD exam_url = none) (hL : fetchL cargo_url = none) :
    (extract_pdf_urls fetchD exam_url).attempts = 1
    ∧ (extract_pdf_urls fetchD exam_url).result = none
    ∧ (extract_exam_links fetchL cargo_url).attempts = 1
    ∧ (extract_exam_links fetchL cargo_url).result = none
    ∧ process_cargo_nav fetchL fetchD cargo_url mf cf = .error () := by
  refine ⟨rfl, ?_, rfl, ?_, ?_⟩
  · simp [extract_pdf_urls, hD]
  · simp [extract_exam_links, hL]
  · simp [process_cargo_nav, extract_exam_links, hL]

/-- Witness for claim C2's amended theorem at concrete always-failing
fetchers. -/
theorem c2_witness :
    (extract_pdf_urls (fun _ => (none : Option DetailPage)) "https://site/e1").attempts = 1
    ∧ (extract_pdf_urls (fun _ => (none : Option DetailPage)) "https://site/e1").result = none
    ∧ (extract_exam_links (fun _ => (none : Option (List ExamDetails)))
        "https://site/cargo").attempts = 1
    ∧ (extract_exam_links (fun _ => (none : Option (List ExamDetails)))
        "https://site/cargo").result = none
    ∧ process_cargo_nav (fun _ => none) (fun _ => none) "https://site/cargo"
        .missing .missing = .error () :=
  c2_no_retry (fun _ => none) (fun _ => none) "https://site/cargo" "https://site/e1"
    .missing .missing rfl rfl

/-- Claim C7, counterexample: flushing new content `"[2]"` over previous
content `"[1]"` exposes the intermediate file content `""` (the `"w"`-mode
truncation), which is neither the previous nor the new content, so the
rewrite is not atomic from the caller's perspective. -/
theorem c7_counterexample : ¬ flush_is_atomic "[1]" "[2]" := by
  intro h
  have := h "" (by decide)
  simp at this

/-- Claim C7 (amended): the flushes at source lines 135–136 and 249–250
rewrite the JSON file in place, with no temporary file and no swap: the
file is truncated to empty first, every content observable during an
interrupted write is a prefix of the new serialized text (so the
previously-good content is destroyed as soon as the write starts), and
only a completed write leaves the full new content. -/
theorem c7_flush_prefix_states (new : String) :
    "" ∈ in_place_write_states new
    ∧ new ∈ in_place_write_states new
    ∧ ∀ s ∈ in_place_write_states new, ∃ k, k ≤ new.data.length ∧ s.data = new.data.take k := by
  unfold in_place_write_states
  refine ⟨?_, ?_, ?_⟩
  · exact List.mem_map.2 ⟨0, List.mem_range.2 (Nat.succ_pos _), rfl⟩
  · refine List.mem_map.2 ⟨new.data.length, List.mem_range.2 (Nat.lt_succ_self _), ?_⟩
    rw [List.take_length]
  · intro s hs
    obtain ⟨k, hk, heq⟩ := List.mem_map.1 hs
    exact ⟨k, Nat.lt_succ_iff.1 (List.mem_range.1 hk), by rw [← heq]⟩

/-- Witness for claim C7's amended theorem at the concrete flush of
`"[1]"`: the intermediate content `"["` is a prefix of the new text. -/
theorem c7_witness :
    ∃ k, k ≤ ("[1]" : String).data.length
      ∧ ("[" : String).data = ("[1]" : String).data.take k :=
  (c7_flush_prefix_states "[1]").2.2 "[" (by decide)

/-- The exam loop never reads the `master_file` component of its state, so
two runs whose start states differ only in that component agree on every
other component. -/
theorem run_ignores_master_file (detail : String → List String) :
    ∀ (ls : List ExamDetails) (m : Master) (mf1 mf2 : MasterFile) (cf : CargoFile)
      (t : List String),
      ((ls.foldl (process_exam_step detail) ⟨m, mf1, cf, t⟩).master
         = (ls.foldl (process_exam_step detail) ⟨m, mf2, cf, t⟩).master)
      ∧ ((ls.foldl (process_exam_step detail) ⟨m, mf1, cf, t⟩).cargo_file
         = (ls.foldl (process_exam_step detail) ⟨m, mf2, cf, t⟩).cargo_file)
      ∧ ((ls.foldl (process_exam_step detail) ⟨m, mf1, cf, t⟩).fetched
         = (ls.foldl (process_exam_step detail) ⟨m, mf2, cf, t⟩).fetched) := by
  intro ls
  induction ls with
  | nil => intro m mf1 mf2 cf t; exact ⟨rfl, rfl, rfl⟩
  | cons l rest ih =>
    intro m mf1 mf2 cf t
    simp only [List.foldl_cons]
    by_cases hc : dict_contains m (detailsKey l) = true
    · have e1 : process_exam_step detail ⟨m, mf1, cf, t⟩ l = ⟨m, mf1, cf, t⟩ := by
        simp [process_exam_step, hc]
      have e2 : process_exam_step detail ⟨m, mf2, cf, t⟩ l = ⟨m, mf2, cf, t⟩ := by
        simp [process_exam_step, hc]
      rw [e1, e2]
      exact ih m mf1 mf2 cf t
    · by_cases he : (detail l.url).isEmpty
      · have e1 : process_exam_step detail ⟨m, mf1, cf, t⟩ l
            = ⟨m, .entries m, cf, t ++ [l.url]⟩ := by
          simp [process_exam_step, hc, he]
        have e2 : process_exam_step detail ⟨m, mf2, cf, t⟩ l
            = ⟨m, .entries m, cf, t ++ [l.url]⟩ := by
          simp [process_exam_step, hc, he]
        rw [e1, e2]
        exact ⟨rfl, rfl, rfl⟩
      · have e1 : process_exam_step detail ⟨m, mf1, cf, t⟩ l
            = ⟨dict_insert m (detailsKey l) (detail l.url),
               .entries (dict_insert m (detailsKey l) (detail l.url)),
               update_exam_with_pdf_urls cf l (detail l.url), t ++ [l.url]⟩ := by
          simp [process_exam_step, hc, he]
        have e2 : process_exam_step detail ⟨m, mf2, cf, t⟩ l
            = ⟨dict_insert m (detailsKey l) (detail l.url),
               .entries (dict_insert m (detailsKey l) (detail l.url)),
               update_exam_with_pdf_urls cf l (detail l.url), t ++ [l.url]⟩ := by
          simp [process_exam_step, hc, he]
        rw [e1, e2]
        exact ⟨rfl, rfl, rfl⟩

/-- Claim C8: every malformed-file case of both loads recovers to the
empty collection without raising (the model is total), a well-formed file
yields its deserialized records, and a crawl started on an unparseable
master file behaves exactly like a crawl started with no master file at
all — the corrupt cache never blocks forward progress. -/
theorem c8_load_recovery :
    load_exams_list .missing = [] ∧ load_exams_list .invalidJson = []
    ∧ load_exams_list .notAList = [] ∧ (∀ rs, load_exams_list (.records rs) = rs)
    ∧ load_master .missing = [] ∧ load_master .invalidJson = []
    ∧ load_master .notADict = [] ∧ (∀ m, load_master (.entries m) = m)
    ∧ (∀ (detail : String → List String) (links : List ExamDetails) (cf : CargoFile),
        (process_cargo detail links .invalidJson cf).master
          = (process_cargo detail links .missing cf).master
        ∧ (process_cargo detail links .invalidJson cf).cargo_file
          = (process_cargo detail links .missing cf).cargo_file
        ∧ (process_cargo detail links .invalidJson cf).fetched
          = (process_cargo detail links .missing cf).fetched) := by
  refine ⟨rfl, rfl, rfl, fun _ => rfl, rfl, rfl, rfl, fun _ => rfl, ?_⟩
  intro detail links cf
  exact run_ignores_master_file detail links [] .invalidJson .missing cf []

/-- Claim C10: record identity is decided by the single concatenated
string, which is coarser than the triple — `colA` and `colB` have distinct
`(position, agency, year)` triples yet equal keys, so upserting both
yields a single record, and in the crawl loop the second reference is
skipped as already cached (only the first detail page is navigated to). -/
theorem c10_key_collision :
    (colA.position, colA.agency, colA.year) ≠ (colB.position, colB.agency, colB.year)
    ∧ detailsKey colA = detailsKey colB
    ∧ (upsert_exam (upsert_exam [] colA ["https://site/a.pdf"]) colB
        ["https://site/b.pdf"]).length = 1
    ∧ (process_cargo (fun _ => ["https://site/a.pdf"]) [colA, colB] .missing .missing).fetched
        = ["https://site/e1"] :=
  ⟨by decide, rfl, rfl, rfl⟩
